import Mathlib

/-!
Shallow embedding of the shirobot2 event-routing core (Go), covering
the data model (core/types.go), the command tree and registry
(core/processor.go, the CommandRegistry source file), the event
processor (core/processor.go) and the engine's event-recycling step
(core/engine.go).

Go maps are embedded as association lists with insert-overwrite
semantics (`upsert`) and first-match lookup (`lookupA`); map iteration
order is irrelevant to every property proved here because keys stay
unique.  Go `panic` is embedded as the `Except.error` branch of an
`Except GoPanic` result, with one constructor per panic site that the
modelled code can reach.  Goroutines, channels, mutexes and loggers
have no observable effect on the modelled functions and are omitted.
-/

namespace Shirobot

/-- Association-list lookup, first match wins (Go map read). -/
def lookupA {α : Type} : List (String × α) → String → Option α
  | [], _ => none
  | (k, v) :: rest, key => if k = key then some v else lookupA rest key

/-- Association-list insert with overwrite (Go map write `m[k] = v`). -/
def upsert {α : Type} : List (String × α) → String → α → List (String × α)
  | [], k, v => [(k, v)]
  | (k', v') :: rest, k, v =>
      if k' = k then (k, v) :: rest else (k', v') :: upsert rest k v

/-- Go `interface{}` values that appear in Event.Data / Response.Data.
String payloads are the only ones the core inspects; `nil` is the nil
interface and `int` stands for any non-string payload. -/
inductive GoVal where
  | str (s : String)
  | int (n : Int)
  | nil
  deriving DecidableEq, Repr

/-- Session from core/types.go.  The `Values sync.Map` field is a
concurrency-safe store never read by the routing core and is omitted. -/
structure GoSession where
  ID : String
  Expires : Int
  deriving DecidableEq, Repr

/-- Event from core/types.go.  `Data map[string]interface{}` is embedded
as an optional association list (`none` is the nil map); `Session
*Session` as an `Option`. -/
structure GoEvent where
  type : String
  platform : String
  data : Option (List (String × GoVal))
  session : Option GoSession
  deriving DecidableEq, Repr

/-- Response from core/types.go (`Metadata map[string]string` as an
association list, `[]` standing for the nil map of the zero value). -/
structure Response where
  type : String
  data : GoVal
  metadata : List (String × String)
  deriving DecidableEq, Repr

/-- ResponseTypes constant from core/types.go. -/
def ResponseTypeText : String := "text"

/-- ResponseTypes constant from core/types.go. -/
def ResponseTypeError : String := "error"

/-- ResponseTypes constant from core/types.go. -/
def ResponseTypeNotHandled : String := "not_handled"

/-- Panic sites reachable in the modelled code: the `.(string)` type
assertion in EventProcessor.Process, and the nil *Command dereference
that Command.Find / CommandRegistry.Find can hit when a child alias
points at a missing child. -/
inductive GoPanic where
  | typeAssertion
  | nilCommand
  deriving DecidableEq, Repr

/-- Context from core/processor.go.  The Go struct also carries a
context.Context (cancellation only), a *Response accumulator (embedded
here as the handler's ok-result) and a *Command back-pointer (which
would make the Lean types mutually recursive); no modelled code path
reads those fields. -/
structure Context where
  Event : GoEvent
  Session : Option GoSession

/-- CommandHandler from core/processor.go: the Go handler writes its
response through ctx.Response and returns an error; embedded as
returning the final response on success. -/
def CommandHandler : Type := Context → List String → Except String Response

/-- Middleware from core/processor.go. -/
def Middleware : Type := CommandHandler → CommandHandler

/-- Command from core/processor.go.  `Parent *Command` is a weak
back-reference used by no modelled code path and is omitted (it would
make the type cyclic).  Fields in source order, `fullPath` last. -/
inductive Command where
  | mk (Name : String) (Aliases : List String) (Handler : CommandHandler)
       (commands : List (String × Command))
       (commandsAliases : List (String × String))
       (fullPath : String)

/-- Field accessor for Command.Name. -/
def Command.Name : Command → String
  | .mk n _ _ _ _ _ => n

/-- Field accessor for Command.Aliases. -/
def Command.Aliases : Command → List String
  | .mk _ a _ _ _ _ => a

/-- Field accessor for Command.Handler. -/
def Command.Handler : Command → CommandHandler
  | .mk _ _ h _ _ _ => h

/-- Field accessor for Command.commands. -/
def Command.commands : Command → List (String × Command)
  | .mk _ _ _ subs _ _ => subs

/-- Field accessor for Command.commandsAliases. -/
def Command.commandsAliases : Command → List (String × String)
  | .mk _ _ _ _ al _ => al

/-- Field accessor for Command.fullPath. -/
def Command.fullPath : Command → String
  | .mk _ _ _ _ _ fp => fp

/-- Functional update of the Handler field. -/
def Command.withHandler : Command → CommandHandler → Command
  | .mk n a _ subs al fp, h => .mk n a h subs al fp

/-- Functional update of the commands field. -/
def Command.withCommands : Command → List (String × Command) → Command
  | .mk n a h _ al fp, subs => .mk n a h subs al fp

/-- Command.AddCommand from core/processor.go for a single child: store
the child under its Name and each of its Aliases in the parent's maps.
(The Go method is variadic; adding several children is iterating this.
The `cmd.Parent = c` assignment concerns the omitted weak
back-reference.) -/
def Command.AddCommand (c : Command) (cmd : Command) : Command :=
  match c with
  | .mk n a h subs al fp =>
      .mk n a h (upsert subs cmd.Name cmd)
        (cmd.Aliases.foldl (fun m a2 => upsert m a2 cmd.Name) al) fp

mutual
/-- Command.SetFullPath recursion from core/processor.go, with the
effective full path passed explicitly: the Go code first assigns
`subCmd.fullPath = c.fullPath + " " + subCmd.Name` and the recursive
call then keeps that non-empty value, which is exactly forcing the
path `fp` on the node and `fp ++ " " ++ child.Name` on each child. -/
def Command.setPathsFrom : String → Command → Command
  | fp, .mk n a h subs al _ => .mk n a h (setPathsFromList fp subs) al fp

/-- Per-child step of Command.SetFullPath (the `for _, subCmd` loop). -/
def setPathsFromList : String → List (String × Command) → List (String × Command)
  | _, [] => []
  | fp, (k, c) :: rest =>
      (k, Command.setPathsFrom (fp ++ " " ++ c.Name) c) :: setPathsFromList fp rest
end

/-- Command.SetFullPath from core/processor.go: keep a non-empty
fullPath, default it to Name, then propagate paths into the subtree. -/
def Command.SetFullPath (c : Command) : Command :=
  Command.setPathsFrom (if c.fullPath = "" then c.Name else c.fullPath) c

/-- Command.Find from core/processor.go.  On empty args the node itself
is returned with nil remaining args; a child match (by name, then by
alias) recurses; otherwise the node and the untouched args come back.
The alias branch reads `c.commands[name]` without checking presence: a
dangling alias yields a nil *Command, on which the recursive call
returns (nil, nil) when the remaining args are empty (the nil receiver
is never dereferenced) and panics otherwise (c.mu.RLock on nil). -/
def Command.Find : Command → List String → Except GoPanic (Option Command × List String)
  | c, [] => .ok (some c, [])
  | c, a :: rest =>
      match lookupA c.commands a with
      | some sub => sub.Find rest
      | none =>
          match lookupA c.commandsAliases a with
          | some nm =>
              match lookupA c.commands nm with
              | some sub => sub.Find rest
              | none => if rest.isEmpty then .ok (none, []) else .error .nilCommand
          | none => .ok (some c, a :: rest)

/-- CommandRegistry's commands map (the logger and mutex fields carry no
modelled behaviour). -/
def CommandRegistry : Type := List (String × Command)

/-- NewRegistry: the empty commands map. -/
def NewRegistry : CommandRegistry := []

/-- CommandRegistry.registerCommandWithAlias: store the command under
its Name and under each alias, in the same top-level map. -/
def CommandRegistry.registerCommandWithAlias
    (r : CommandRegistry) (cmd : Command) : CommandRegistry :=
  cmd.Aliases.foldl (fun m a2 => upsert m a2 cmd) (upsert r cmd.Name cmd)

/-- CommandRegistry.registerMiddleware's composition loop: starting from
the current handler, wrap with mws[i] for i from last to first, so
mws[0] ends outermost. -/
def composeMiddlewares (mws : List Middleware) (handler : CommandHandler) : CommandHandler :=
  mws.foldr (fun m h => m h) handler

/-- CommandRegistry.registerMiddleware from the registry source: replace
cmd.Handler by the middleware-wrapped handler (the registry receiver is
unused by the Go method body). -/
def CommandRegistry.registerMiddleware (cmd : Command) (mws : List Middleware) : Command :=
  cmd.withHandler (composeMiddlewares mws cmd.Handler)

/-- CommandRegistry.Register from the registry source.  If the name is
already a key of the top-level map the existing command is returned and
nothing changes; otherwise the command gets its full paths set, its
handler and each DIRECT child's handler middleware-wrapped (the loop
`for _, subCmd := range cmd.commands` does not recurse), and is stored
under its name and aliases.  Returns the updated map and the
registered (or pre-existing) command. -/
def CommandRegistry.Register (r : CommandRegistry) (cmd : Command)
    (mws : List Middleware) : CommandRegistry × Command :=
  match lookupA r cmd.Name with
  | some existing => (r, existing)
  | none =>
      let cmd1 := cmd.SetFullPath
      let cmd2 := CommandRegistry.registerMiddleware cmd1 mws
      let cmd3 := cmd2.withCommands
        (cmd2.commands.map fun p => (p.1, CommandRegistry.registerMiddleware p.2 mws))
      (CommandRegistry.registerCommandWithAlias r cmd3, cmd3)

/-- CommandRegistry.Find from the registry source.  Empty args: (nil,
nil).  First token not a key: (nil, args).  Otherwise delegate to
Command.Find on the tail; the success log line then reads
currentCmd.Name, so a nil command coming back from the dangling-alias
case is dereferenced and panics here. -/
def CommandRegistry.Find (r : CommandRegistry) (args : List String) :
    Except GoPanic (Option Command × List String) :=
  match args with
  | [] => .ok (none, [])
  | a :: rest =>
      match lookupA r a with
      | none => .ok (none, a :: rest)
      | some cmd =>
          match cmd.Find rest with
          | .error p => .error p
          | .ok (none, _) => .error .nilCommand
          | .ok (some c, remaining) => .ok (some c, remaining)

/-- Splitter behind Go strings.Fields, over the character list: break
on whitespace runs, never emitting an empty field; acc collects the
current field in reverse. -/
def goFieldsAux : List Char → List Char → List (List Char)
  | [], acc => if acc = [] then [] else [acc.reverse]
  | c :: rest, acc =>
      if c.isWhitespace then
        if acc = [] then goFieldsAux rest [] else acc.reverse :: goFieldsAux rest []
      else goFieldsAux rest (c :: acc)

/-- Go strings.Fields: the whitespace-separated fields of s.  (Go
splits on unicode.IsSpace; Char.isWhitespace agrees on every character
the claims exercise.) -/
def goFields (s : String) : List String :=
  (goFieldsAux s.data []).map String.mk

/-- Go strings.HasPrefix(s, "/") as used by ParseCommand: the first
character is the slash. -/
def goHasSlash (s : String) : Bool :=
  match s.data with
  | [] => false
  | c :: _ => c = '/'

/-- Go strings.TrimPrefix(s, "/"): drop the leading slash when present,
give s back unchanged otherwise. -/
def goTrimSlash (s : String) : String :=
  if goHasSlash s then String.mk s.data.tail else s

/-- splitCommand from core/processor.go: strings.Fields, with an empty
result standing for the nil slice the Go code returns. -/
def splitCommand (input : String) : List String :=
  goFields input

/-- ParseCommand from core/processor.go: inputs without the "/" prefix
give nil; otherwise the prefix is trimmed and the rest tokenized. -/
def ParseCommand (input : String) : List String :=
  if goHasSlash input then splitCommand (goTrimSlash input) else []

/-- The `e.Data["text"].(string)` read in EventProcessor.Process.
`none` means the type assertion panics: the Data map is nil, the key is
absent (both give a nil interface), or the value is not a string. -/
def eventText (e : GoEvent) : Option String :=
  match e.data with
  | none => none
  | some m =>
      match lookupA m "text" with
      | some (.str s) => some s
      | _ => none

/-- EventProcessor.Process from core/processor.go, over the plugin
manager's registry.  Reads Data["text"] (panicking if it is not a
string), parses the command, answers not_handled for non-commands,
error "command not found" for unresolved token lists, and otherwise
runs the resolved handler, converting a handler error into an error
response and returning the handler's response on success. -/
def EventProcessor.Process (reg : CommandRegistry) (e : GoEvent) :
    Except GoPanic Response :=
  match eventText e with
  | none => .error .typeAssertion
  | some text =>
      let args := ParseCommand text
      if args.isEmpty then
        .ok { type := ResponseTypeNotHandled, data := .nil, metadata := [] }
      else
        match CommandRegistry.Find reg args with
        | .error p => .error p
        | .ok (none, _) =>
            .ok { type := ResponseTypeError, data := .str "command not found", metadata := [] }
        | .ok (some cmd, remainingArgs) =>
            match cmd.Handler { Event := e, Session := e.session } remainingArgs with
            | .error msg => .ok { type := ResponseTypeError, data := .str msg, metadata := [] }
            | .ok resp => .ok resp

/-- Event.Reset from core/types.go.  The Go method has a VALUE receiver
`func (e Event) Reset()`: it assigns zero values to the fields of its
local copy of the event.  This definition is that local copy at the end
of the method body; the caller's event is untouched by the call. -/
def GoEvent.Reset (_e : GoEvent) : GoEvent :=
  { type := "", platform := "", data := none, session := none }

/-- Engine.recycleEvent from core/engine.go: `event.Reset()` runs on a
copy (value receiver), its result is discarded, and `&event` — the
still-populated local — is put into the pool.  The returned value is
the Event placed into eventPool. -/
def Engine.recycleEvent (event : GoEvent) : GoEvent :=
  let _copy := event.Reset
  event

/-! Concrete commands, registries and events used to instantiate the
theorems below.  Handlers and middlewares are made observable by the
marks they append: a handler answers with the comma-joined list of the
args it received plus its own mark, and a middleware appends its mark
to the args before invoking the next handler (or answers directly,
without invoking it, for the aborting variant).  Invocation order is
thus readable off the mark order of the final response. -/

/-- Response carrying a list of trace marks as its text payload. -/
def traceResp (marks : List String) : Response :=
  { type := ResponseTypeText, data := .str (String.intercalate "," marks), metadata := [] }

/-- Handler that records the args it was invoked on plus its own mark. -/
def traceHandler (mark : String) : CommandHandler :=
  fun _ args => .ok (traceResp (args ++ [mark]))

/-- Middleware that appends its mark and invokes the next handler. -/
def traceMw (mark : String) : Middleware :=
  fun next c args => next c (args ++ [mark])

/-- Middleware that answers directly WITHOUT invoking the next handler
(the short-circuit case of the middleware contract). -/
def abortMw (mark : String) : Middleware :=
  fun _ _ args => .ok (traceResp (args ++ [mark]))

/-- Scenario command: child ban with alias b. -/
def ban : Command := .mk "ban" ["b"] (traceHandler "BAN") [] [] ""

/-- Scenario command: root admin holding child ban. -/
def admin : Command := (Command.mk "admin" [] (traceHandler "ADMIN") [] [] "").AddCommand ban

/-- Registry holding only admin (registered without middlewares). -/
def adminRegistry : CommandRegistry := (CommandRegistry.Register NewRegistry admin []).1

/-- The command instance Register stored for admin. -/
def adminRegistered : Command := (CommandRegistry.Register NewRegistry admin []).2

/-- Depth-2 scenario: grand below child below root. -/
def grandC3 : Command := .mk "grand" [] (traceHandler "G") [] [] ""

/-- Depth-1 node of the depth-2 scenario. -/
def childC3 : Command := (Command.mk "child" [] (traceHandler "C") [] [] "").AddCommand grandC3

/-- Root of the depth-2 scenario. -/
def rootC3 : Command := (Command.mk "root" [] (traceHandler "R") [] [] "").AddCommand childC3

/-- Registry where rootC3 was registered with one tracing middleware. -/
def mwRegistry : CommandRegistry :=
  (CommandRegistry.Register NewRegistry rootC3 [traceMw "M"]).1

/-- An arbitrary invocation context for exercising handlers. -/
def ctx0 : Context :=
  { Event := { type := "", platform := "", data := none, session := none }, Session := none }

/-- The grand command as installed in mwRegistry, found by walking
root / child / grand. -/
def installedGrand : Option Command :=
  match CommandRegistry.Find mwRegistry ["root", "child", "grand"] with
  | .ok (co, _) => co
  | _ => none

/-- A populated event as the engine sees one mid-processing. -/
def pooledEventInput : GoEvent :=
  { type := "message", platform := "wechat",
    data := some [("text", GoVal.str "hi")], session := none }

/-- C1 — the engine recycles events into the pool unreset.  Go's
`func (e Event) Reset()` takes its receiver BY VALUE, so the
`event.Reset()` call inside Engine.recycleEvent zeroes a copy and the
event placed into the pool keeps every field: recycleEvent is the
identity, shown in general and on a fully populated event, while the
method body itself (the discarded copy) does compute the all-zero
event — the reset never reaches the pooled instance. -/
theorem recycleEvent_value_receiver_keeps_fields :
    (∀ e : GoEvent, Engine.recycleEvent e = e) ∧
    Engine.recycleEvent pooledEventInput = pooledEventInput ∧
    pooledEventInput.type = "message" ∧
    pooledEventInput.data ≠ none ∧
    GoEvent.Reset pooledEventInput =
      { type := "", platform := "", data := none, session := none } := by
  refine ⟨fun e => rfl, rfl, rfl, by decide, rfl⟩

/-- C2 (counterexample) — on a first token matching no registered name
or alias, CommandRegistry.Find does NOT return (nil, nil): with the
empty registry and args x it returns (nil, x), the untouched args. -/
theorem Find_first_token_miss_not_nil_nil :
    CommandRegistry.Find NewRegistry ["x"] ≠ .ok (none, ([] : List String)) ∧
    CommandRegistry.Find NewRegistry ["x"] = .ok (none, ["x"]) := by
  refine ⟨fun h => ?_, rfl⟩
  simp [CommandRegistry.Find, NewRegistry, lookupA] at h

/-- C2 (amended) — CommandRegistry.Find returns (nil, nil) on an empty
args list, and (nil, args) — command nil, the args unchanged rather
than nil — when the first token is not a key of the registry map. -/
theorem Find_empty_and_miss_cases (r : CommandRegistry) (a : String)
    (rest : List String) (h : lookupA r a = none) :
    CommandRegistry.Find r [] = .ok (none, []) ∧
    CommandRegistry.Find r (a :: rest) = .ok (none, a :: rest) := by
  exact ⟨rfl, by simp [CommandRegistry.Find, h]⟩

/-- C2 witness: the amended Find behaviour at the empty registry and
first token x. -/
theorem Find_empty_and_miss_cases_witness :
    lookupA NewRegistry "x" = none ∧
    (CommandRegistry.Find NewRegistry [] = .ok (none, []) ∧
     CommandRegistry.Find NewRegistry ["x"] = .ok (none, ["x"])) :=
  ⟨rfl, Find_empty_and_miss_cases NewRegistry "x" [] rfl⟩

/-- C4 — middleware order.  registerMiddleware composes mws[0] as the
outermost layer: with tracing middlewares A and B around an arbitrary
command's handler, the handler runs last and receives the marks in the
order A then B (A ran first); with an aborting A, the result carries
only A's mark and is independent of both the second middleware and the
handler — neither ever runs. -/
theorem registerMiddleware_order_and_short_circuit
    (cmd : Command) (B : Middleware) (c : Context) (args : List String) :
    (CommandRegistry.registerMiddleware cmd [traceMw "A", traceMw "B"]).Handler c args
      = cmd.Handler c (args ++ ["A", "B"]) ∧
    (CommandRegistry.registerMiddleware cmd [abortMw "A", B]).Handler c args
      = .ok (traceResp (args ++ ["A"])) := by
  cases cmd
  constructor <;>
    simp [CommandRegistry.registerMiddleware, composeMiddlewares, Command.withHandler,
      Command.Handler, traceMw, abortMw]

/-- C5 — Register is idempotent by top-level name: when the name is
already a key of the registry map, Register returns the registry
unchanged together with the already-stored instance, wrapping nothing
and mutating nothing. -/
theorem Register_idempotent_by_name (r : CommandRegistry) (cmd : Command)
    (mws : List Middleware) (existing : Command)
    (h : lookupA r cmd.Name = some existing) :
    CommandRegistry.Register r cmd mws = (r, existing) := by
  simp [CommandRegistry.Register, h]

/-- C5 witness: re-registering the name admin (as a fresh command with
middlewares) over adminRegistry is a no-op returning the stored admin. -/
theorem Register_idempotent_by_name_witness :
    lookupA adminRegistry (Command.mk "admin" [] (traceHandler "DUP") [] [] "").Name
      = some adminRegistered ∧
    CommandRegistry.Register adminRegistry
        (Command.mk "admin" [] (traceHandler "DUP") [] [] "") [traceMw "M"]
      = (adminRegistry, adminRegistered) :=
  ⟨rfl, Register_idempotent_by_name adminRegistry
      (Command.mk "admin" [] (traceHandler "DUP") [] [] "") [traceMw "M"] adminRegistered rfl⟩

/-- C8 — greedy resolution through aliases: in the registry holding
admin with child ban aliased b, Find on admin b userX walks admin, maps
b to ban through the child-alias map, and returns the ban command
(full path admin ban) with remaining args userX. -/
theorem Find_admin_ban_alias_scenario :
    CommandRegistry.Find adminRegistry ["admin", "b", "userX"]
      = .ok (some (Command.mk "ban" ["b"] (traceHandler "BAN") [] [] "admin ban"),
             ["userX"]) := rfl

/-- Reading the Handler of a withHandler update. -/
theorem Command.withHandler_Handler (c : Command) (h : CommandHandler) :
    (c.withHandler h).Handler = h := by cases c; rfl

/-- withHandler leaves the commands map alone. -/
theorem Command.withHandler_commands (c : Command) (h : CommandHandler) :
    (c.withHandler h).commands = c.commands := by cases c; rfl

/-- withCommands leaves the Handler alone. -/
theorem Command.withCommands_Handler (c : Command) (subs : List (String × Command)) :
    (c.withCommands subs).Handler = c.Handler := by cases c; rfl

/-- Reading the commands map of a withCommands update. -/
theorem Command.withCommands_commands (c : Command) (subs : List (String × Command)) :
    (c.withCommands subs).commands = subs := by cases c; rfl

/-- registerMiddleware wraps exactly the Handler field. -/
theorem registerMiddleware_Handler (c : Command) (mws : List Middleware) :
    (CommandRegistry.registerMiddleware c mws).Handler = composeMiddlewares mws c.Handler := by
  simp [CommandRegistry.registerMiddleware, Command.withHandler_Handler]

/-- registerMiddleware leaves the commands map alone. -/
theorem registerMiddleware_commands (c : Command) (mws : List Middleware) :
    (CommandRegistry.registerMiddleware c mws).commands = c.commands := by
  simp [CommandRegistry.registerMiddleware, Command.withHandler_commands]

/-- setPathsFrom leaves the Handler alone. -/
theorem setPathsFrom_Handler (fp : String) (c : Command) :
    (Command.setPathsFrom fp c).Handler = c.Handler := by cases c; rfl

/-- Commands map of a setPathsFrom result. -/
theorem setPathsFrom_commands (fp : String) (c : Command) :
    (Command.setPathsFrom fp c).commands = setPathsFromList fp c.commands := by
  cases c; rfl

/-- SetFullPath leaves the Handler alone. -/
theorem SetFullPath_Handler (c : Command) : c.SetFullPath.Handler = c.Handler := by
  simp [Command.SetFullPath, setPathsFrom_Handler]

/-- Commands map of a SetFullPath result. -/
theorem SetFullPath_commands (c : Command) :
    c.SetFullPath.commands
      = setPathsFromList (if c.fullPath = "" then c.Name else c.fullPath) c.commands := by
  simp [Command.SetFullPath, setPathsFrom_commands]

/-- Lookup through the per-child path-setting pass: each stored child
comes back path-adjusted, Handler untouched. -/
theorem lookupA_setPathsFromList (fp : String) (l : List (String × Command)) (k : String) :
    lookupA (setPathsFromList fp l) k
      = (lookupA l k).map fun c => Command.setPathsFrom (fp ++ " " ++ c.Name) c := by
  induction l with
  | nil => rfl
  | cons p rest ih =>
      obtain ⟨k1, c1⟩ := p
      by_cases hk : k1 = k <;> simp [setPathsFromList, lookupA, hk, ih]

/-- Lookup through Register's direct-child wrapping pass: each stored
child comes back with its handler middleware-wrapped. -/
theorem lookupA_map_registerMiddleware (mws : List Middleware)
    (l : List (String × Command)) (k : String) :
    lookupA (l.map fun p => (p.1, CommandRegistry.registerMiddleware p.2 mws)) k
      = (lookupA l k).map fun c => CommandRegistry.registerMiddleware c mws := by
  induction l with
  | nil => rfl
  | cons p rest ih =>
      obtain ⟨k1, v1⟩ := p
      by_cases hk : k1 = k <;> simp [lookupA, hk, ih]

/-- Shape of the command Register stores when the name is new. -/
theorem Register_snd_of_not_found (r : CommandRegistry) (cmd : Command)
    (mws : List Middleware) (h : lookupA r cmd.Name = none) :
    (CommandRegistry.Register r cmd mws).2
      = (CommandRegistry.registerMiddleware cmd.SetFullPath mws).withCommands
          ((CommandRegistry.registerMiddleware cmd.SetFullPath mws).commands.map
            fun p => (p.1, CommandRegistry.registerMiddleware p.2 mws)) := by
  simp [CommandRegistry.Register, h]

/-- C3 (counterexample) — registering rootC3 with tracing middleware M
does NOT wrap the grandchild: the grand command installed in
mwRegistry still answers with trace G alone on empty args, whereas the
wrapped handler the claim requires would answer with trace M,G — two
different responses. -/
theorem Register_middleware_skips_grandchild :
    (installedGrand.map fun c => c.Handler ctx0 []) = some (.ok (traceResp ["G"])) ∧
    composeMiddlewares [traceMw "M"] (traceHandler "G") ctx0 [] = .ok (traceResp ["M", "G"]) ∧
    (Except.ok (traceResp ["G"]) : Except String Response) ≠ .ok (traceResp ["M", "G"]) := by
  refine ⟨rfl, rfl, ?_⟩
  intro h
  have h2 : String.intercalate "," ["G"] = String.intercalate "," ["M", "G"] := by
    have h3 := Except.ok.inj h
    have h4 := congrArg Response.data h3
    simpa [traceResp] using h4
  exact absurd h2 (by decide)

/-- C3 (amended) — Register wraps the supplied middlewares around the
registered command's handler and around each DIRECT child's handler;
a grandchild (and with it everything deeper, which only ever receives
the path-setting pass) keeps its original handler unchanged. -/
theorem Register_middleware_wraps_two_levels (r : CommandRegistry) (cmd : Command)
    (mws : List Middleware) (k k2 : String) (sub g : Command)
    (h0 : lookupA r cmd.Name = none)
    (h1 : lookupA cmd.commands k = some sub)
    (h2 : lookupA sub.commands k2 = some g) :
    (CommandRegistry.Register r cmd mws).2.Handler = composeMiddlewares mws cmd.Handler ∧
    ∃ sub2, lookupA (CommandRegistry.Register r cmd mws).2.commands k = some sub2 ∧
      sub2.Handler = composeMiddlewares mws sub.Handler ∧
      ∃ g2, lookupA sub2.commands k2 = some g2 ∧ g2.Handler = g.Handler := by
  rw [Register_snd_of_not_found r cmd mws h0]
  constructor
  · rw [Command.withCommands_Handler, registerMiddleware_Handler, SetFullPath_Handler]
  · rw [Command.withCommands_commands, lookupA_map_registerMiddleware,
      registerMiddleware_commands, SetFullPath_commands, lookupA_setPathsFromList, h1]
    refine ⟨_, rfl, ?_, ?_⟩
    · rw [registerMiddleware_Handler, setPathsFrom_Handler]
    · rw [registerMiddleware_commands, setPathsFrom_commands, lookupA_setPathsFromList, h2]
      exact ⟨_, rfl, setPathsFrom_Handler _ _⟩

/-- C3 witness: the amended wrapping behaviour instantiated on the
depth-2 scenario root / child / grand with middleware M over the empty
registry. -/
theorem Register_middleware_wraps_two_levels_witness :
    lookupA NewRegistry rootC3.Name = none ∧
    lookupA rootC3.commands "child" = some childC3 ∧
    lookupA childC3.commands "grand" = some grandC3 ∧
    ((CommandRegistry.Register NewRegistry rootC3 [traceMw "M"]).2.Handler
        = composeMiddlewares [traceMw "M"] rootC3.Handler ∧
     ∃ sub2, lookupA (CommandRegistry.Register NewRegistry rootC3 [traceMw "M"]).2.commands
          "child" = some sub2 ∧
        sub2.Handler = composeMiddlewares [traceMw "M"] childC3.Handler ∧
        ∃ g2, lookupA sub2.commands "grand" = some g2 ∧ g2.Handler = grandC3.Handler) :=
  ⟨rfl, rfl, rfl,
    Register_middleware_wraps_two_levels NewRegistry rootC3 [traceMw "M"]
      "child" "grand" childC3 grandC3 rfl rfl rfl⟩

/-- An event whose free text is plain hello. -/
def helloEvent : GoEvent :=
  { type := "message", platform := "wechat",
    data := some [("text", GoVal.str "hello")], session := none }

/-- An event whose free text is the command help. -/
def helpEvent : GoEvent :=
  { type := "message", platform := "wechat",
    data := some [("text", GoVal.str "/help")], session := none }

/-- C6 — non-commands are not handled and trigger no registry lookup:
when the text lacks the "/" prefix, or tokenizes to nothing once the
prefix is stripped, Process answers not_handled, and its answer is the
same over EVERY registry — the absence of a lookup made observable. -/
theorem Process_not_command_no_lookup (reg reg2 : CommandRegistry) (e : GoEvent)
    (s : String) (h1 : eventText e = some s)
    (h2 : ¬ goHasSlash s ∨ goFields (goTrimSlash s) = []) :
    EventProcessor.Process reg e
      = .ok { type := ResponseTypeNotHandled, data := .nil, metadata := [] } ∧
    EventProcessor.Process reg e = EventProcessor.Process reg2 e := by
  have hp : ParseCommand s = [] := by
    rcases h2 with h2 | h2
    · simp [ParseCommand, h2]
    · simp [ParseCommand, splitCommand, h2]
  have key : ∀ r : CommandRegistry, EventProcessor.Process r e
      = .ok { type := ResponseTypeNotHandled, data := .nil, metadata := [] } := by
    intro r
    simp [EventProcessor.Process, h1, hp]
  exact ⟨key reg, (key reg).trans (key reg2).symm⟩

/-- C6 witness: the hello event over the empty registry and the admin
registry. -/
theorem Process_not_command_no_lookup_witness :
    eventText helloEvent = some "hello" ∧
    (¬ goHasSlash "hello" ∨ goFields (goTrimSlash "hello") = []) ∧
    (EventProcessor.Process NewRegistry helloEvent
        = .ok { type := ResponseTypeNotHandled, data := .nil, metadata := [] } ∧
     EventProcessor.Process NewRegistry helloEvent
        = EventProcessor.Process adminRegistry helloEvent) :=
  ⟨rfl, Or.inl (by decide),
    Process_not_command_no_lookup NewRegistry adminRegistry helloEvent "hello"
      rfl (Or.inl (by decide))⟩

/-- C7 — unresolved commands produce the fixed error response: when the
text parses to a non-empty token list on which the registry Find comes
back with a nil command, Process returns — rather than raising past its
boundary — the response of type error with payload command not found. -/
theorem Process_command_not_found (reg : CommandRegistry) (e : GoEvent) (s a : String)
    (rest rem : List String)
    (h1 : eventText e = some s)
    (h2 : ParseCommand s = a :: rest)
    (h3 : CommandRegistry.Find reg (a :: rest) = .ok (none, rem)) :
    EventProcessor.Process reg e
      = .ok { type := ResponseTypeError, data := .str "command not found",
              metadata := [] } := by
  simp [EventProcessor.Process, h1, h2, h3]

/-- C7 witness: the /help event over a registry with no help command. -/
theorem Process_command_not_found_witness :
    eventText helpEvent = some "/help" ∧
    ParseCommand "/help" = ["help"] ∧
    CommandRegistry.Find NewRegistry ["help"] = .ok (none, ["help"]) ∧
    EventProcessor.Process NewRegistry helpEvent
      = .ok { type := ResponseTypeError, data := .str "command not found",
              metadata := [] } :=
  ⟨rfl, rfl, rfl,
    Process_command_not_found NewRegistry helpEvent "/help" "help" [] ["help"]
      rfl rfl rfl⟩

/-- Command.Find can panic only at the nil *Command dereference, never
at a type assertion. -/
theorem Command_Find_no_typeAssertion (args : List String) :
    ∀ c : Command, c.Find args ≠ .error GoPanic.typeAssertion := by
  induction args with
  | nil => intro c; simp [Command.Find]
  | cons a rest ih =>
      intro c
      simp only [Command.Find]
      cases h1 : lookupA c.commands a with
      | some sub => simp only [h1]; exact ih sub
      | none =>
          simp only [h1]
          cases h2 : lookupA c.commandsAliases a with
          | some nm =>
              simp only [h2]
              cases h3 : lookupA c.commands nm with
              | some sub => simp only [h3]; exact ih sub
              | none =>
                  simp only [h3]
                  by_cases hr : rest.isEmpty <;> simp [hr]
          | none => simp [h2]


/-- CommandRegistry.Find can panic only at the nil *Command
dereference, never at a type assertion. -/
theorem Registry_Find_no_typeAssertion (r : CommandRegistry) (args : List String) :
    CommandRegistry.Find r args ≠ .error GoPanic.typeAssertion := by
  cases args with
  | nil => simp [CommandRegistry.Find]
  | cons a rest =>
      simp only [CommandRegistry.Find]
      cases h1 : lookupA r a with
      | none => simp [h1]
      | some cmd =>
          simp only [h1]
          cases h2 : Command.Find cmd rest with
          | error p =>
              simp only [h2]
              intro hc
              exact Command_Find_no_typeAssertion rest cmd (h2.trans hc)
          | ok v =>
              obtain ⟨co, rem⟩ := v
              cases co <;> simp [h2]

/-- C10 — Process has the unstated precondition that Data maps the key
text to a string value: the type-assertion panic of
EventProcessor.Process fires exactly when the Data map is nil, lacks
the key text, or binds it to a non-string — and is therefore
unreachable whenever the precondition holds. -/
theorem Process_typeAssertion_iff_no_text (reg : CommandRegistry) (e : GoEvent) :
    EventProcessor.Process reg e = .error GoPanic.typeAssertion ↔ eventText e = none := by
  cases h : eventText e with
  | none => simp [EventProcessor.Process, h]
  | some s =>
      simp only [EventProcessor.Process, h]
      constructor
      · intro hP
        exfalso
        by_cases hargs : (ParseCommand s).isEmpty
        · simp [hargs] at hP
        · simp only [hargs, if_false, Bool.false_eq_true] at hP
          revert hP
          cases hF : CommandRegistry.Find reg (ParseCommand s) with
          | error p =>
              simp only [hF]
              intro hc
              have hp : p = GoPanic.typeAssertion := by injection hc
              exact Registry_Find_no_typeAssertion reg (ParseCommand s) (by rw [hF, hp])
          | ok v =>
              obtain ⟨co, rem⟩ := v
              cases co with
              | none => simp [hF]
              | some cmd =>
                  simp only [hF]
                  cases cmd.Handler { Event := e, Session := e.session } rem <;> simp
      · intro hc
        cases hc

end Shirobot
